import Mathlib

/-
  Verification development for the "you-pushed" editor extension
  (src/extension.ts).

  The development shallowly embeds the extension's logic:

  * the static command-registration structure of `activate`,
    `setupGitCommandHooks` (the `pushCommands` list and its wrappers),
    `setupGitPushWatcher` and `setupGitExtensionListener`;
  * the dynamic timer-driven behaviour of `triggerYouPushed` (a 500 ms
    debounce), `showYouPushedMessage` (webview panel with a 5000 ms
    auto-dispose timer and an `onDidDispose` handler) and `deactivate`,
    modelled as a single-threaded event loop with an explicit queue of
    pending `setTimeout` timers, fired in (deadline, scheduling-order)
    order exactly as the JavaScript event loop does.
-/

namespace YouPushed

/-! ## Static model: commands registered by `activate` -/

/-- The list of git commands wrapped by `setupGitCommandHooks`
(src/extension.ts lines 26-34). -/
def pushCommands : List String :=
  [ "git.push"
  , "git.pushForce"
  , "git.pushTo"
  , "git.pushWithTags"
  , "git.sync"
  , "git.syncRebase"
  , "git.publish" ]

/-- Modelled from the spec: the spec's "fixed enumerated set of push-like
command identifiers (force-push, push-to, push-with-tags, sync,
sync-with-rebase, publish)" rendered as the corresponding git command ids.
Plain `push` is absent from the spec's enumeration. -/
def specPushLikeCommands : List String :=
  [ "git.pushForce"
  , "git.pushTo"
  , "git.pushWithTags"
  , "git.sync"
  , "git.syncRebase"
  , "git.publish" ]

/-- For each wrapped command the extension registers a command named
`you-pushed.wrap.<commandId>` (src/extension.ts line 39). -/
def wrapperCommandIds : List String :=
  pushCommands.map (fun c => "you-pushed.wrap." ++ c)

/-- The body of a wrapper command (src/extension.ts lines 40-51): execute
the original command with the forwarded arguments; on success emit one
detection event (one call to `triggerYouPushed`); on failure emit no
detection event and re-throw the original error.  The returned `Nat` is
the number of detection events emitted. -/
def wrapPushCommand {ε α : Type} (orig : List α → Except ε Unit)
    (args : List α) : Except ε Unit × Nat :=
  match orig args with
  | .ok _ => (.ok (), 1)
  | .error e => (.error e, 0)

/-! ## Static model: activation environment -/

/-- The control surface returned by the git extension's `getAPI`
(src/extension.ts line 73); only the repository list matters here. -/
structure GitAPI where
  repositories : List Nat
deriving Repr, DecidableEq

/-- The optional external git-integration extension
(src/extension.ts line 64). -/
structure GitExtension where
  getAPI : Nat → Option GitAPI

/-- The host environment `activate` runs in: the open workspace folders
(`vscode.workspace.workspaceFolders`, possibly undefined), whether the
`.git/logs/refs/remotes` directory exists under a folder, and the
optional git extension. -/
structure Env where
  workspaceFolders : Option (List String)
  remotesDirExists : String → Bool
  gitExtension : Option GitExtension

/-- `setupGitPushWatcher` (src/extension.ts lines 131-167): if no
workspace folder is open, return immediately with no watcher; otherwise
register one filesystem watcher per folder whose
`.git/logs/refs/remotes` directory exists.  A watcher is represented by
the folder it watches. -/
def setupGitPushWatcher (env : Env) : List String :=
  match env.workspaceFolders with
  | none => []
  | some folders => folders.filter (fun f => env.remotesDirExists f)

/-- `setupGitExtensionListener` (src/extension.ts lines 62-89): if the
git extension is absent, log and return; if its API cannot be obtained,
log and return; otherwise attach listeners to every tracked repository.
The result is the list of repositories listened to; the `Except` layer
records that no error escapes on the absent paths. -/
def setupGitExtensionListener (env : Env) : Except String (List Nat) :=
  match env.gitExtension with
  | none => .ok []
  | some ext =>
    match ext.getAPI 1 with
    | none => .ok []
    | some api => .ok api.repositories

/-- The observable outcome of `activate` (src/extension.ts lines 8-22):
the user-invocable commands registered, the filesystem watchers
registered, and the bridge's outcome. -/
structure Activation where
  commands : List String
  watchers : List String
  bridge : Except String (List Nat)

/-- `activate` (src/extension.ts lines 8-22): registers the
`you-pushed.test` command, sets up the filesystem watcher, and sets up
the git command hooks (wrapper commands plus the git-extension
listener). -/
def activate (env : Env) : Activation :=
  { commands := "you-pushed.test" :: wrapperCommandIds
  , watchers := setupGitPushWatcher env
  , bridge := setupGitExtensionListener env }

/-! ## Dynamic model: the timer-driven notification logic

The extension's runtime behaviour is driven by the two module-level
variables `currentPanel` and `debounceTimer` and by `setTimeout`
callbacks.  We model the JavaScript event loop explicitly: a state
carries the pending `setTimeout` timers (each with a unique id, a
deadline, and which callback it runs), kept sorted by deadline with
later-scheduled timers after earlier ones at equal deadlines, exactly
the order in which the event loop fires them. -/

/-- Which `setTimeout` callback a pending timer runs: the 500 ms
debounce callback of `triggerYouPushed` (src/extension.ts lines
175-177), or the 5000 ms auto-dispose callback of
`showYouPushedMessage` (src/extension.ts lines 199-204). -/
inductive TimerKind where
  | debounce
  | autoDismiss
deriving Repr, DecidableEq

/-- A pending `setTimeout` timer: its handle (`id`), its deadline
(`fireAt`, in ms), and its callback. -/
structure Timer where
  id : Nat
  fireAt : Nat
  kind : TimerKind
deriving Repr, DecidableEq

/-- Insert a timer into the pending queue, which is kept sorted by
deadline; a newly scheduled timer goes after already-pending timers
with the same deadline (its handle is always the largest), matching the
JavaScript event loop's firing order. -/
def insertT (a : Timer) : List Timer → List Timer
  | [] => [a]
  | b :: l => if a.fireAt < b.fireAt then a :: b :: l else b :: insertT a l

/-- The interpreter state: current time, the two module-level mutable
variables (`currentPanel` holding the live panel's id, `debounceTimer`
holding the last debounce timer's handle), the pending timer queue,
fresh-id counters, and the observable history: which panels were shown
and disposed (with timestamps), and whether `dispose` was ever called
on an already-disposed panel. -/
structure St where
  now : Nat
  currentPanel : Option Nat
  debounceTimer : Option Nat
  timers : List Timer
  nextTimer : Nat
  nextPanel : Nat
  shown : List (Nat × Nat)
  disposed : List (Nat × Nat)
  doubleDispose : Bool
deriving Repr, DecidableEq

/-- The state at activation: no panel, no timer, nothing shown. -/
def initSt : St :=
  { now := 0, currentPanel := none, debounceTimer := none, timers := []
  , nextTimer := 0, nextPanel := 0, shown := [], disposed := []
  , doubleDispose := false }

/-- `panel.dispose()`: disposing an already-disposed panel is recorded
as a double dispose; otherwise the disposal is logged and the panel's
`onDidDispose` handler (src/extension.ts lines 207-209) runs, clearing
`currentPanel`. -/
def disposePanel (p : Nat) (s : St) : St :=
  if p ∈ s.disposed.map Prod.fst then
    { s with doubleDispose := true }
  else
    { s with disposed := s.disposed ++ [(p, s.now)], currentPanel := none }

/-- `showYouPushedMessage` (src/extension.ts lines 180-210): dispose any
existing panel, create a new one, make it current, and schedule its
5000 ms auto-dispose timer (whose handle is not stored anywhere). -/
def stepShow (s : St) : St :=
  let s1 := match s.currentPanel with
    | some p => disposePanel p s
    | none => s
  { s1 with
    currentPanel := some s1.nextPanel
  , nextPanel := s1.nextPanel + 1
  , shown := s1.shown ++ [(s1.nextPanel, s1.now)]
  , timers := insertT ⟨s1.nextTimer, s1.now + 5000, .autoDismiss⟩ s1.timers
  , nextTimer := s1.nextTimer + 1 }

/-- `clearTimeout`: remove the timer with the given handle from the
pending queue (a no-op on a handle that already fired). -/
def clearTimeout (i : Nat) (l : List Timer) : List Timer :=
  l.filter (fun t => t.id ≠ i)

/-- `triggerYouPushed` (src/extension.ts lines 169-178): clear any
pending debounce timer, then schedule a new debounce timer 500 ms from
now and remember its handle. -/
def stepTrigger (s : St) : St :=
  let s1 := match s.debounceTimer with
    | some i => { s with timers := clearTimeout i s.timers }
    | none => s
  { s1 with
    timers := insertT ⟨s1.nextTimer, s1.now + 500, .debounce⟩ s1.timers
  , debounceTimer := some s1.nextTimer
  , nextTimer := s1.nextTimer + 1 }

/-- The user externally closing the live panel: the panel is disposed,
which runs its `onDidDispose` handler.  A no-op when no panel is live. -/
def stepExtClose (s : St) : St :=
  match s.currentPanel with
  | some p => disposePanel p s
  | none => s

/-- `deactivate` (src/extension.ts lines 352-359): dispose the current
panel if any, and clear the debounce timer if its handle is set.  Note
it clears only `debounceTimer`; auto-dispose timers have no stored
handle. -/
def stepDeactivate (s : St) : St :=
  let s1 := match s.currentPanel with
    | some p => disposePanel p s
    | none => s
  match s1.debounceTimer with
  | some i => { s1 with timers := clearTimeout i s1.timers }
  | none => s1

/-- The body of the 5000 ms auto-dispose `setTimeout` callback
(src/extension.ts lines 199-204): if some panel is currently live,
dispose it (whichever panel that now is) and clear `currentPanel`. -/
def autoCb (s : St) : St :=
  match s.currentPanel with
  | some p => { disposePanel p s with currentPanel := none }
  | none => s

/-- Fire a timer: advance the clock to its deadline and run its
callback (the timer itself has already been removed from the queue). -/
def fireTimer (t : Timer) (s : St) : St :=
  match t.kind with
  | .debounce => stepShow { s with now := t.fireAt }
  | .autoDismiss => autoCb { s with now := t.fireAt }

/-- Termination weight of a pending timer: firing a debounce timer may
schedule one auto-dispose timer, firing an auto-dispose timer schedules
nothing. -/
def tw (t : Timer) : Nat :=
  match t.kind with
  | .debounce => 2
  | .autoDismiss => 1

/-- Total termination weight of a timer queue. -/
def wsum (l : List Timer) : Nat := (l.map tw).sum

@[simp] theorem disposePanel_timers (p : Nat) (s : St) :
    (disposePanel p s).timers = s.timers := by
  unfold disposePanel; split <;> rfl

@[simp] theorem disposePanel_shown (p : Nat) (s : St) :
    (disposePanel p s).shown = s.shown := by
  unfold disposePanel; split <;> rfl

@[simp] theorem disposePanel_nextTimer (p : Nat) (s : St) :
    (disposePanel p s).nextTimer = s.nextTimer := by
  unfold disposePanel; split <;> rfl

@[simp] theorem disposePanel_nextPanel (p : Nat) (s : St) :
    (disposePanel p s).nextPanel = s.nextPanel := by
  unfold disposePanel; split <;> rfl

@[simp] theorem disposePanel_now (p : Nat) (s : St) :
    (disposePanel p s).now = s.now := by
  unfold disposePanel; split <;> rfl

@[simp] theorem disposePanel_debounceTimer (p : Nat) (s : St) :
    (disposePanel p s).debounceTimer = s.debounceTimer := by
  unfold disposePanel; split <;> rfl

@[simp] theorem stepShow_timers (s : St) :
    (stepShow s).timers
      = insertT ⟨s.nextTimer, s.now + 5000, .autoDismiss⟩ s.timers := by
  unfold stepShow; cases s.currentPanel <;> simp

@[simp] theorem stepShow_shown (s : St) :
    (stepShow s).shown = s.shown ++ [(s.nextPanel, s.now)] := by
  unfold stepShow; cases s.currentPanel <;> simp

@[simp] theorem stepShow_nextTimer (s : St) :
    (stepShow s).nextTimer = s.nextTimer + 1 := by
  unfold stepShow; cases s.currentPanel <;> simp

@[simp] theorem stepShow_nextPanel (s : St) :
    (stepShow s).nextPanel = s.nextPanel + 1 := by
  unfold stepShow; cases s.currentPanel <;> simp

@[simp] theorem stepShow_now (s : St) :
    (stepShow s).now = s.now := by
  unfold stepShow; cases s.currentPanel <;> simp

@[simp] theorem stepShow_currentPanel (s : St) :
    (stepShow s).currentPanel = some s.nextPanel := by
  unfold stepShow; cases s.currentPanel <;> simp

@[simp] theorem stepShow_debounceTimer (s : St) :
    (stepShow s).debounceTimer = s.debounceTimer := by
  unfold stepShow; cases s.currentPanel <;> simp

@[simp] theorem autoCb_timers (s : St) :
    (autoCb s).timers = s.timers := by
  unfold autoCb; cases s.currentPanel <;> simp

@[simp] theorem autoCb_shown (s : St) :
    (autoCb s).shown = s.shown := by
  unfold autoCb; cases s.currentPanel <;> simp

@[simp] theorem autoCb_nextTimer (s : St) :
    (autoCb s).nextTimer = s.nextTimer := by
  unfold autoCb; cases s.currentPanel <;> simp

@[simp] theorem autoCb_nextPanel (s : St) :
    (autoCb s).nextPanel = s.nextPanel := by
  unfold autoCb; cases s.currentPanel <;> simp

@[simp] theorem autoCb_debounceTimer (s : St) :
    (autoCb s).debounceTimer = s.debounceTimer := by
  unfold autoCb; cases s.currentPanel <;> simp

theorem insertT_wsum (a : Timer) (l : List Timer) :
    wsum (insertT a l) = tw a + wsum l := by
  induction l with
  | nil => simp [insertT, wsum]
  | cons b l ih =>
    simp only [insertT]
    split
    · simp [wsum]
    · simp [wsum] at ih ⊢
      omega

theorem fireTimer_wsum_lt (t : Timer) (s : St) :
    wsum (fireTimer t s).timers < tw t + wsum s.timers := by
  cases h : t.kind <;> simp [fireTimer, h, tw, insertT_wsum]

/-- Fire every pending timer whose deadline is at most `T`, in queue
order (used when external activity happens at time `T`: all earlier
timer callbacks have already run). -/
def drain (T : Nat) (s : St) : St :=
  match ht : s.timers with
  | [] => s
  | t :: rest =>
    if t.fireAt ≤ T then drain T (fireTimer t { s with timers := rest }) else s
termination_by wsum s.timers
decreasing_by
  simp only [ht, wsum, List.map_cons, List.sum_cons]
  have := fireTimer_wsum_lt t { s with timers := rest }
  simp only [wsum] at this
  omega

/-- Fire every pending timer, in queue order (runs the event loop to
quiescence at the end of a scenario). -/
def drainAll (s : St) : St :=
  match ht : s.timers with
  | [] => s
  | t :: rest => drainAll (fireTimer t { s with timers := rest })
termination_by wsum s.timers
decreasing_by
  simp only [ht, wsum, List.map_cons, List.sum_cons]
  have := fireTimer_wsum_lt t { s with timers := rest }
  simp only [wsum] at this
  omega

/-- External stimuli: a detection event (`triggerYouPushed`), a direct
`showYouPushedMessage` call (the `you-pushed.test` command), the user
closing the panel, and extension shutdown (`deactivate`). -/
inductive Ev where
  | trigger
  | show
  | extClose
  | deactivate
deriving Repr, DecidableEq

/-- Dispatch an external stimulus. -/
def doExt : Ev → St → St
  | .trigger => stepTrigger
  | .show => stepShow
  | .extClose => stepExtClose
  | .deactivate => stepDeactivate

/-- Run a timed scenario: external stimuli `(time, event)` in
chronological order.  Before each stimulus every timer due by then
fires; after the last stimulus the event loop runs to quiescence. -/
def run : List (Nat × Ev) → St → St
  | [], s => drainAll s
  | (te, e) :: evs, s => run evs (doExt e { drain te s with now := te })

/-- The timestamps at which notifications were shown. -/
def shownTimes (s : St) : List Nat := s.shown.map Prod.snd

/-- The number of live (shown and not yet disposed) notification
surfaces. -/
def liveCount (s : St) : Nat :=
  (s.shown.filter (fun e => decide (e.1 ∈ s.disposed.map Prod.fst) = false)).length

theorem drain_nil {T : Nat} {s : St} (h : s.timers = []) : drain T s = s := by
  rw [drain.eq_def]; split <;> simp_all

theorem drain_fire {T : Nat} {s : St} {t : Timer} {rest : List Timer}
    (h : s.timers = t :: rest) (hf : t.fireAt ≤ T) :
    drain T s = drain T (fireTimer t { s with timers := rest }) := by
  rw [drain.eq_def]; split <;> simp_all

theorem drain_stop {T : Nat} {s : St} {t : Timer} {rest : List Timer}
    (h : s.timers = t :: rest) (hf : ¬ t.fireAt ≤ T) :
    drain T s = s := by
  rw [drain.eq_def]; split <;> simp_all

theorem drainAll_nil {s : St} (h : s.timers = []) : drainAll s = s := by
  rw [drainAll.eq_def]; split <;> simp_all

theorem drainAll_cons {s : St} {t : Timer} {rest : List Timer}
    (h : s.timers = t :: rest) :
    drainAll s = drainAll (fireTimer t { s with timers := rest }) := by
  rw [drainAll.eq_def]; split <;> simp_all

@[simp] theorem run_nil (s : St) : run [] s = drainAll s := rfl

@[simp] theorem run_cons (te : Nat) (e : Ev) (evs : List (Nat × Ev)) (s : St) :
    run ((te, e) :: evs) s = run evs (doExt e { drain te s with now := te }) :=
  rfl

/-! ## Claims about the static structure -/

/-- Claim C6: for every wrapped push-like command invocation with any
arguments, if the underlying command succeeds the wrapper emits exactly
one detection event; if it fails, the wrapper emits zero detection
events and re-raises the original error unchanged. -/
theorem claim6_wrapper_success_and_failure {ε α : Type}
    (orig : List α → Except ε Unit) (args : List α) :
    (orig args = .ok () → wrapPushCommand orig args = (.ok (), 1)) ∧
    (∀ e, orig args = .error e → wrapPushCommand orig args = (.error e, 0)) := by
  constructor
  · intro h
    simp [wrapPushCommand, h]
  · intro e h
    simp [wrapPushCommand, h]

theorem claim6_witness :
    (wrapPushCommand (fun _ : List Nat => (.ok () : Except String Unit)) []
        = (.ok (), 1)) ∧
    (wrapPushCommand (fun _ : List Nat => (.error "boom" : Except String Unit)) []
        = (.error "boom", 0)) :=
  ⟨(claim6_wrapper_success_and_failure (fun _ => .ok ()) []).1 rfl,
   (claim6_wrapper_success_and_failure (fun _ => .error "boom") []).2 "boom" rfl⟩

/-- Claim C7 counterexample: the code wraps plain `git.push` as well,
which is absent from the claim's six-element enumeration (force-push,
push-to, push-with-tags, sync, sync-with-rebase, publish), so the set of
wrapped commands is not that enumeration. -/
theorem claim7_counterexample_plain_push :
    "git.push" ∈ pushCommands ∧ "git.push" ∉ specPushLikeCommands ∧
    pushCommands ≠ specPushLikeCommands := by
  decide

/-- Claim C7 (amended): the wrapper commands registered are exactly the
seven `you-pushed.wrap.`-prefixed push-like commands — plain push,
force-push, push-to, push-with-tags, sync, sync-with-rebase and publish
— and `activate` registers exactly the test command plus these. -/
theorem claim7_amended_wrapper_set :
    wrapperCommandIds =
      [ "you-pushed.wrap.git.push"
      , "you-pushed.wrap.git.pushForce"
      , "you-pushed.wrap.git.pushTo"
      , "you-pushed.wrap.git.pushWithTags"
      , "you-pushed.wrap.git.sync"
      , "you-pushed.wrap.git.syncRebase"
      , "you-pushed.wrap.git.publish" ] ∧
    ∀ env : Env, (activate env).commands = "you-pushed.test" :: wrapperCommandIds :=
  ⟨rfl, fun _ => rfl⟩

/-- Claim C9: if the git-integration extension is absent or its API
cannot be obtained, the bridge path is a no-op (`ok []`, no error), and
the filesystem-watch path is unaffected: the watchers depend only on the
workspace folders and directory existence, never on the git extension. -/
theorem claim9_bridge_absent_noop (env : Env)
    (h : env.gitExtension = none ∨
      ∃ ext, env.gitExtension = some ext ∧ ext.getAPI 1 = none) :
    (activate env).bridge = .ok [] ∧
    (activate env).watchers = setupGitPushWatcher env ∧
    ∀ env2 : Env, env2.workspaceFolders = env.workspaceFolders →
      env2.remotesDirExists = env.remotesDirExists →
      (activate env2).watchers = (activate env).watchers := by
  refine ⟨?_, rfl, ?_⟩
  · rcases h with h | ⟨ext, h1, h2⟩
    · simp [activate, setupGitExtensionListener, h]
    · simp [activate, setupGitExtensionListener, h1, h2]
  · intro env2 h1 h2
    simp [activate, setupGitPushWatcher, h1, h2]

theorem claim9_witness :
    (activate ⟨some ["/repo"], fun _ => true, none⟩).bridge = .ok [] ∧
    (activate ⟨some ["/repo"], fun _ => true, some ⟨fun _ => none⟩⟩).watchers
      = (activate ⟨some ["/repo"], fun _ => true, none⟩).watchers :=
  ⟨(claim9_bridge_absent_noop ⟨some ["/repo"], fun _ => true, none⟩ (Or.inl rfl)).1,
   (claim9_bridge_absent_noop ⟨some ["/repo"], fun _ => true, none⟩
      (Or.inl rfl)).2.2 ⟨some ["/repo"], fun _ => true, some ⟨fun _ => none⟩⟩ rfl rfl⟩

/-- Claim C10: if no workspace folder is open at activation, the
filesystem-watcher setup registers no watcher, and activation still
completes, registering the test command and the seven wrapper
commands. -/
theorem claim10_no_workspace_activation (env : Env)
    (h : env.workspaceFolders = none) :
    (activate env).watchers = [] ∧
    (activate env).commands =
      [ "you-pushed.test"
      , "you-pushed.wrap.git.push"
      , "you-pushed.wrap.git.pushForce"
      , "you-pushed.wrap.git.pushTo"
      , "you-pushed.wrap.git.pushWithTags"
      , "you-pushed.wrap.git.sync"
      , "you-pushed.wrap.git.syncRebase"
      , "you-pushed.wrap.git.publish" ] := by
  constructor
  · simp [activate, setupGitPushWatcher, h]
  · rfl

theorem claim10_witness :
    (activate ⟨none, fun _ => false, none⟩).watchers = [] ∧
    (activate ⟨none, fun _ => false, none⟩).commands =
      [ "you-pushed.test"
      , "you-pushed.wrap.git.push"
      , "you-pushed.wrap.git.pushForce"
      , "you-pushed.wrap.git.pushTo"
      , "you-pushed.wrap.git.pushWithTags"
      , "you-pushed.wrap.git.sync"
      , "you-pushed.wrap.git.syncRebase"
      , "you-pushed.wrap.git.publish" ] :=
  claim10_no_workspace_activation ⟨none, fun _ => false, none⟩ rfl

/-! ## Claims about the dynamic behaviour -/

/-- Claim C4 counterexample: `show` at t=0 and again at t=3000.  The
panel shown at 3000 is disposed at 5000 — after only 2000 ms — because
the first panel's 5000 ms auto-dispose callback disposes whatever panel
is live when it fires, refuting "the auto-dismiss of one surface never
disposes a different (later) surface before that surface's own 5000 ms
elapse" (and the first panel, never externally closed, is disposed at
3000 rather than at its own 5000 ms mark). -/
theorem claim4_counterexample_overlapping_shows :
    (run [(0, Ev.show), (3000, Ev.show)] initSt).shown
        = [(0, 0), (1, 3000)] ∧
    (run [(0, Ev.show), (3000, Ev.show)] initSt).disposed
        = [(0, 3000), (1, 5000)] := by
  constructor <;>
    simp [run, drain.eq_def, drainAll.eq_def, fireTimer, stepShow, autoCb,
      disposePanel, doExt, insertT, initSt]

/-- Claim C8 counterexample: after `show` at t=0 and `deactivate` at
t=1000, the 5000 ms auto-dispose timer is still pending — `deactivate`
clears only the debounce timer handle, and the auto-dispose timer's
handle was never stored — and running on, its callback fires at t=5000,
after shutdown (harmlessly, as the live-panel reference was cleared). -/
theorem claim8_counterexample_timer_survives_deactivate :
    (stepDeactivate { stepShow { initSt with now := 0 } with now := 1000 }).timers
        = [⟨0, 5000, .autoDismiss⟩] ∧
    (run [(0, Ev.show), (1000, Ev.deactivate)] initSt).now = 5000 := by
  constructor
  · decide
  · simp [run, drain.eq_def, drainAll.eq_def, fireTimer, stepShow, autoCb,
      disposePanel, stepDeactivate, doExt, insertT, initSt, clearTimeout]

/-- Claim C5: if the surface shown at time `ts` is externally closed at
any time `tc` before its 5000 ms auto-dismiss, the close callback clears
the live-surface reference, so the auto-dismiss timer later fires as a
no-op: the panel is disposed exactly once (at `tc`) and no dispose is
ever attempted on an already-disposed surface. -/
theorem claim5_external_close_no_double_dispose (ts tc : Nat)
    (h1 : ts ≤ tc) (h2 : tc < ts + 5000) :
    (run [(ts, Ev.show), (tc, Ev.extClose)] initSt).disposed = [(0, tc)] ∧
    (run [(ts, Ev.show), (tc, Ev.extClose)] initSt).doubleDispose = false ∧
    (run [(ts, Ev.show), (tc, Ev.extClose)] initSt).currentPanel = none := by
  have e0 : drain ts initSt = initSt := drain_nil rfl
  have e1 : doExt Ev.show { drain ts initSt with now := ts }
      = ({ now := ts, currentPanel := some 0, debounceTimer := none
         , timers := [⟨0, ts + 5000, TimerKind.autoDismiss⟩], nextTimer := 1
         , nextPanel := 1, shown := [(0, ts)], disposed := []
         , doubleDispose := false } : St) := by
    rw [e0]
    rfl
  rw [run_cons, run_cons, run_nil, e1]
  rw [drain_stop rfl (by simpa using h2)]
  have e2 : doExt Ev.extClose
      ({ ({ now := ts, currentPanel := some 0, debounceTimer := none
          , timers := [⟨0, ts + 5000, TimerKind.autoDismiss⟩], nextTimer := 1
          , nextPanel := 1, shown := [(0, ts)], disposed := []
          , doubleDispose := false } : St) with now := tc })
      = ({ now := tc, currentPanel := none, debounceTimer := none
         , timers := [⟨0, ts + 5000, TimerKind.autoDismiss⟩], nextTimer := 1
         , nextPanel := 1, shown := [(0, ts)], disposed := [(0, tc)]
         , doubleDispose := false } : St) := rfl
  rw [e2]
  rw [drainAll_cons rfl]
  have e3 : fireTimer ⟨0, ts + 5000, TimerKind.autoDismiss⟩
      ({ ({ now := tc, currentPanel := none, debounceTimer := none
          , timers := [⟨0, ts + 5000, TimerKind.autoDismiss⟩], nextTimer := 1
          , nextPanel := 1, shown := [(0, ts)], disposed := [(0, tc)]
          , doubleDispose := false } : St) with timers := [] })
      = ({ now := ts + 5000, currentPanel := none, debounceTimer := none
         , timers := [], nextTimer := 1
         , nextPanel := 1, shown := [(0, ts)], disposed := [(0, tc)]
         , doubleDispose := false } : St) := rfl
  rw [e3, drainAll_nil rfl]
  exact ⟨rfl, rfl, rfl⟩

theorem claim5_witness :
    (run [(100, Ev.show), (2100, Ev.extClose)] initSt).disposed = [(0, 2100)] ∧
    (run [(100, Ev.show), (2100, Ev.extClose)] initSt).doubleDispose = false ∧
    (run [(100, Ev.show), (2100, Ev.extClose)] initSt).currentPanel = none :=
  claim5_external_close_no_double_dispose 100 2100 (by decide) (by decide)

/-- Spacing discipline for a list of timestamps: each is at least `d`,
and successive ones are at least 5000 ms apart. -/
def spacedFromB (d : Nat) : List Nat → Bool
  | [] => true
  | t :: ts => decide (d ≤ t) && spacedFromB (t + 5000) ts

/-- The `(panelId, shownAt)` entries produced by `show` calls at the
given times, starting from panel id `np`. -/
def expShows (np : Nat) : List Nat → List (Nat × Nat)
  | [] => []
  | t :: ts => (np, t) :: expShows (np + 1) ts

/-- The `(panelId, disposedAt)` entries produced when each of those
panels is auto-disposed exactly 5000 ms after it was shown. -/
def expDisp (np : Nat) : List Nat → List (Nat × Nat)
  | [] => []
  | t :: ts => (np, t + 5000) :: expDisp (np + 1) ts

theorem expDisp_eq_map (ts : List Nat) (np : Nat) :
    expDisp np ts = (expShows np ts).map (fun e => (e.1, e.2 + 5000)) := by
  induction ts generalizing np with
  | nil => rfl
  | cons t ts ih => simp [expDisp, expShows, ih]

/-- Running a sequence of `show` stimuli spaced at least 5000 ms apart
from a state with one live panel and exactly its pending auto-dispose
timer: every panel is disposed exactly 5000 ms after it was shown. -/
theorem runShows_spec (ts : List Nat) (x p i d nt np : Nat)
    (Sh D : List (Nat × Nat))
    (hD : p ∉ D.map Prod.fst)
    (hDlt : ∀ q ∈ D.map Prod.fst, q < np)
    (hp : p < np)
    (hsp : spacedFromB d ts = true) :
    (run (ts.map (fun t => (t, Ev.show)))
      { now := x, currentPanel := some p, debounceTimer := none
      , timers := [⟨i, d, .autoDismiss⟩], nextTimer := nt, nextPanel := np
      , shown := Sh, disposed := D, doubleDispose := false }).shown
        = Sh ++ expShows np ts ∧
    (run (ts.map (fun t => (t, Ev.show)))
      { now := x, currentPanel := some p, debounceTimer := none
      , timers := [⟨i, d, .autoDismiss⟩], nextTimer := nt, nextPanel := np
      , shown := Sh, disposed := D, doubleDispose := false }).disposed
        = D ++ (p, d) :: expDisp np ts := by
  induction ts generalizing x p i d nt np Sh D with
  | nil =>
    rw [List.map_nil, run_nil, drainAll_cons rfl]
    have e1 : fireTimer ⟨i, d, TimerKind.autoDismiss⟩
        ({ ({ now := x, currentPanel := some p, debounceTimer := none
            , timers := [⟨i, d, TimerKind.autoDismiss⟩], nextTimer := nt
            , nextPanel := np, shown := Sh, disposed := D
            , doubleDispose := false } : St) with timers := [] })
        = ({ now := d, currentPanel := none, debounceTimer := none
           , timers := [], nextTimer := nt, nextPanel := np
           , shown := Sh, disposed := D ++ [(p, d)]
           , doubleDispose := false } : St) := by
      simp [fireTimer, autoCb, disposePanel, hD]
    rw [e1, drainAll_nil rfl]
    simp [expShows, expDisp]
  | cons t1 ts ih =>
    simp only [spacedFromB, Bool.and_eq_true, decide_eq_true_eq] at hsp
    obtain ⟨hdt, hsp⟩ := hsp
    rw [List.map_cons, run_cons, drain_fire rfl hdt]
    have e1 : fireTimer ⟨i, d, TimerKind.autoDismiss⟩
        ({ ({ now := x, currentPanel := some p, debounceTimer := none
            , timers := [⟨i, d, TimerKind.autoDismiss⟩], nextTimer := nt
            , nextPanel := np, shown := Sh, disposed := D
            , doubleDispose := false } : St) with timers := [] })
        = ({ now := d, currentPanel := none, debounceTimer := none
           , timers := [], nextTimer := nt, nextPanel := np
           , shown := Sh, disposed := D ++ [(p, d)]
           , doubleDispose := false } : St) := by
      simp [fireTimer, autoCb, disposePanel, hD]
    rw [e1, drain_nil rfl]
    have e2 : doExt Ev.show
        ({ ({ now := d, currentPanel := none, debounceTimer := none
            , timers := [], nextTimer := nt, nextPanel := np
            , shown := Sh, disposed := D ++ [(p, d)]
            , doubleDispose := false } : St) with now := t1 })
        = ({ now := t1, currentPanel := some np, debounceTimer := none
           , timers := [⟨nt, t1 + 5000, TimerKind.autoDismiss⟩]
           , nextTimer := nt + 1, nextPanel := np + 1
           , shown := Sh ++ [(np, t1)], disposed := D ++ [(p, d)]
           , doubleDispose := false } : St) := rfl
    rw [e2]
    have hD2 : np ∉ (D ++ [(p, d)]).map Prod.fst := by
      simp only [List.map_append, List.mem_append, List.map_cons]
      rintro (h | h)
      · exact absurd (hDlt np h) (by omega)
      · simp at h
        omega
    have hDlt2 : ∀ q ∈ (D ++ [(p, d)]).map Prod.fst, q < np + 1 := by
      intro q hq
      simp only [List.map_append, List.mem_append] at hq
      rcases hq with h | h
      · exact Nat.lt_succ_of_lt (hDlt q h)
      · simp at h
        omega
    obtain ⟨ih1, ih2⟩ := ih t1 np nt (t1 + 5000) (nt + 1) (np + 1)
      (Sh ++ [(np, t1)]) (D ++ [(p, d)]) hD2 hDlt2 (Nat.lt_succ_self np) hsp
    refine ⟨?_, ?_⟩
    · rw [ih1]
      simp [expShows]
    · rw [ih2]
      simp [expDisp]

/-- Claim C4 (amended): a surface created by `show()` auto-disposes
exactly 5000 ms after it was shown provided no other `show()` overlaps
it (successive shows at least 5000 ms apart); when shows do overlap, the
earlier pending auto-dispose timer disposes whichever surface is live
when it fires, so a later surface can be disposed before its own 5000 ms
elapse (see the counterexample). -/
theorem claim4_amended_auto_dispose (t0 : Nat) (ts : List Nat)
    (h : spacedFromB (t0 + 5000) ts = true) :
    (run ((t0 :: ts).map (fun t => (t, Ev.show))) initSt).disposed
      = ((run ((t0 :: ts).map (fun t => (t, Ev.show))) initSt).shown).map
          (fun e => (e.1, e.2 + 5000)) := by
  rw [List.map_cons, run_cons, drain_nil rfl]
  have e1 : doExt Ev.show { initSt with now := t0 }
      = ({ now := t0, currentPanel := some 0, debounceTimer := none
         , timers := [⟨0, t0 + 5000, TimerKind.autoDismiss⟩], nextTimer := 1
         , nextPanel := 1, shown := [(0, t0)], disposed := []
         , doubleDispose := false } : St) := rfl
  rw [e1]
  obtain ⟨h1, h2⟩ := runShows_spec ts t0 0 0 (t0 + 5000) 1 1
    [(0, t0)] [] (by simp) (by simp) Nat.zero_lt_one h
  rw [h1, h2]
  simp [expDisp_eq_map]

theorem claim4_witness :
    (run ([0, 6000].map (fun t => (t, Ev.show))) initSt).disposed
      = ((run ([0, 6000].map (fun t => (t, Ev.show))) initSt).shown).map
          (fun e => (e.1, e.2 + 5000)) :=
  claim4_amended_auto_dispose 0 [6000] (by decide)

/-- A burst of detection-event times starting after `prev`: each event
is no earlier than the previous one and strictly less than 500 ms after
it. -/
def burstB (prev : Nat) : List Nat → Bool
  | [] => true
  | t :: ts => (decide (prev ≤ t) && decide (t < prev + 500)) && burstB t ts

/-- Event times that each arrive strictly before the pending debounce
deadline `fa`, each rescheduling the deadline to 500 ms after itself. -/
def burstNextB (fa : Nat) : List Nat → Bool
  | [] => true
  | t :: ts => decide (t < fa) && burstNextB (t + 500) ts

/-- The deadline of the last (surviving) debounce timer of a burst. -/
def lastFire (fa : Nat) : List Nat → Nat
  | [] => fa
  | t :: ts => lastFire (t + 500) ts

/-- The last element of `t0 :: ts`. -/
def lastT (a : Nat) : List Nat → Nat
  | [] => a
  | t :: ts => lastT t ts

theorem burstNextB_of_burstB (ts : List Nat) (prev : Nat)
    (h : burstB prev ts = true) : burstNextB (prev + 500) ts = true := by
  induction ts generalizing prev with
  | nil => rfl
  | cons t ts ih =>
    simp only [burstB, Bool.and_eq_true, decide_eq_true_eq] at h
    simp only [burstNextB, Bool.and_eq_true, decide_eq_true_eq]
    exact ⟨h.1.2, ih t h.2⟩

theorem lastFire_eq (ts : List Nat) (t0 : Nat) :
    lastFire (t0 + 500) ts = lastT t0 ts + 500 := by
  induction ts generalizing t0 with
  | nil => rfl
  | cons t ts ih => exact ih t

/-- Running a sequence of `trigger` stimuli that each arrive before the
pending debounce timer fires: only the final rescheduled debounce timer
survives, so exactly one notification is shown, at that timer's
deadline. -/
theorem runTriggers_burst (ts : List Nat) (x i fa nt np : Nat)
    (hb : burstNextB fa ts = true) :
    (run (ts.map (fun t => (t, Ev.trigger)))
      { now := x, currentPanel := none, debounceTimer := some i
      , timers := [⟨i, fa, .debounce⟩], nextTimer := nt, nextPanel := np
      , shown := [], disposed := [], doubleDispose := false }).shown
        = [(np, lastFire fa ts)] ∧
    (run (ts.map (fun t => (t, Ev.trigger)))
      { now := x, currentPanel := none, debounceTimer := some i
      , timers := [⟨i, fa, .debounce⟩], nextTimer := nt, nextPanel := np
      , shown := [], disposed := [], doubleDispose := false }).disposed
        = [(np, lastFire fa ts + 5000)] := by
  induction ts generalizing x i fa nt np with
  | nil =>
    rw [List.map_nil, run_nil, drainAll_cons rfl]
    have e1 : fireTimer ⟨i, fa, TimerKind.debounce⟩
        ({ ({ now := x, currentPanel := none, debounceTimer := some i
            , timers := [⟨i, fa, TimerKind.debounce⟩], nextTimer := nt
            , nextPanel := np, shown := [], disposed := []
            , doubleDispose := false } : St) with timers := [] })
        = ({ now := fa, currentPanel := some np, debounceTimer := some i
           , timers := [⟨nt, fa + 5000, TimerKind.autoDismiss⟩]
           , nextTimer := nt + 1, nextPanel := np + 1
           , shown := [(np, fa)], disposed := []
           , doubleDispose := false } : St) := rfl
    rw [e1, drainAll_cons rfl]
    have e2 : fireTimer ⟨nt, fa + 5000, TimerKind.autoDismiss⟩
        ({ ({ now := fa, currentPanel := some np, debounceTimer := some i
            , timers := [⟨nt, fa + 5000, TimerKind.autoDismiss⟩]
            , nextTimer := nt + 1, nextPanel := np + 1
            , shown := [(np, fa)], disposed := []
            , doubleDispose := false } : St) with timers := [] })
        = ({ now := fa + 5000, currentPanel := none, debounceTimer := some i
           , timers := [], nextTimer := nt + 1, nextPanel := np + 1
           , shown := [(np, fa)], disposed := [(np, fa + 5000)]
           , doubleDispose := false } : St) := rfl
    rw [e2, drainAll_nil rfl]
    exact ⟨rfl, rfl⟩
  | cons t1 ts ih =>
    simp only [burstNextB, Bool.and_eq_true, decide_eq_true_eq] at hb
    obtain ⟨ht1, hb⟩ := hb
    rw [List.map_cons, run_cons, drain_stop rfl (by simp; omega)]
    have e1 : doExt Ev.trigger
        ({ ({ now := x, currentPanel := none, debounceTimer := some i
            , timers := [⟨i, fa, TimerKind.debounce⟩], nextTimer := nt
            , nextPanel := np, shown := [], disposed := []
            , doubleDispose := false } : St) with now := t1 })
        = ({ now := t1, currentPanel := none, debounceTimer := some nt
           , timers := [⟨nt, t1 + 500, TimerKind.debounce⟩], nextTimer := nt + 1
           , nextPanel := np, shown := [], disposed := []
           , doubleDispose := false } : St) := by
      simp [doExt, stepTrigger, clearTimeout, insertT]
    rw [e1]
    exact ih t1 nt (t1 + 500) (nt + 1) np hb

/-- Claim C1: for every burst of detection events spaced less than
500 ms apart, exactly one notification is shown, and it is shown 500 ms
after the last event of the burst (each trigger cancels the pending
debounce timer and schedules a new one 500 ms out). -/
theorem claim1_burst_single_notification (t0 : Nat) (ts : List Nat)
    (hb : burstB t0 ts = true) :
    (run ((t0 :: ts).map (fun t => (t, Ev.trigger))) initSt).shown
      = [(0, lastT t0 ts + 500)] := by
  rw [List.map_cons, run_cons, drain_nil rfl]
  have e1 : doExt Ev.trigger { initSt with now := t0 }
      = ({ now := t0, currentPanel := none, debounceTimer := some 0
         , timers := [⟨0, t0 + 500, TimerKind.debounce⟩], nextTimer := 1
         , nextPanel := 0, shown := [], disposed := []
         , doubleDispose := false } : St) := rfl
  rw [e1]
  have := (runTriggers_burst ts t0 0 (t0 + 500) 1 0
    (burstNextB_of_burstB ts t0 hb)).1
  rw [this, lastFire_eq]

theorem claim1_witness :
    (run ([0, 100, 400, 800].map (fun t => (t, Ev.trigger))) initSt).shown
      = [(0, 800 + 500)] :=
  claim1_burst_single_notification 0 [100, 400, 800] (by decide)

/-- Claim C8 (amended): `deactivate` disposes the live surface if one
exists and cancels the pending debounce timer if its handle is set; it
does not cancel a pending auto-dispose timer (that handle is never
stored), but every timer still pending after shutdown is an auto-dispose
timer whose callback, if it later fires, is a no-op: it disposes nothing
and raises no double-dispose, because the live-surface reference was
cleared. -/
theorem claim8_amended_deactivate (s : St)
    (hcur : ∀ p, s.currentPanel = some p → p ∉ s.disposed.map Prod.fst)
    (hdeb : ∀ t ∈ s.timers, t.kind = .debounce → s.debounceTimer = some t.id) :
    (stepDeactivate s).currentPanel = none ∧
    (∀ p, s.currentPanel = some p → (p, s.now) ∈ (stepDeactivate s).disposed) ∧
    (∀ i, s.debounceTimer = some i →
      ∀ t ∈ (stepDeactivate s).timers, t.id ≠ i) ∧
    (∀ t ∈ (stepDeactivate s).timers,
      t.kind = .autoDismiss ∧
      (fireTimer t (stepDeactivate s)).disposed = (stepDeactivate s).disposed ∧
      (fireTimer t (stepDeactivate s)).doubleDispose
        = (stepDeactivate s).doubleDispose) := by
  obtain ⟨sn, sc, sd, stm, snt, snp, ssh, sdi, sdd⟩ := s
  have hstep : ∃ Tl D,
      stepDeactivate ⟨sn, sc, sd, stm, snt, snp, ssh, sdi, sdd⟩
        = { now := sn, currentPanel := none, debounceTimer := sd, timers := Tl
          , nextTimer := snt, nextPanel := snp, shown := ssh, disposed := D
          , doubleDispose := sdd } ∧
      (∀ p, sc = some p → (p, sn) ∈ D) ∧
      (∀ t ∈ Tl, t ∈ stm ∧ ∀ i, sd = some i → t.id ≠ i) := by
    cases hc : sc with
    | none =>
      cases hd : sd with
      | none =>
        refine ⟨stm, sdi, ?_, by simp, ?_⟩
        · simp [stepDeactivate]
        · exact fun t ht => ⟨ht, by simp⟩
      | some i =>
        refine ⟨clearTimeout i stm, sdi, ?_, by simp, ?_⟩
        · simp [stepDeactivate]
        · intro t ht
          simp only [clearTimeout, List.mem_filter, decide_eq_true_eq] at ht
          refine ⟨ht.1, ?_⟩
          intro j hj
          cases hj
          exact ht.2
    | some p =>
      have hpd : p ∉ sdi.map Prod.fst := hcur p (by rw [hc])
      cases hd : sd with
      | none =>
        refine ⟨stm, sdi ++ [(p, sn)], ?_, ?_, ?_⟩
        · simp [stepDeactivate, disposePanel, hpd]
        · intro q hq
          cases hq
          simp
        · exact fun t ht => ⟨ht, by simp⟩
      | some i =>
        refine ⟨clearTimeout i stm, sdi ++ [(p, sn)], ?_, ?_, ?_⟩
        · simp [stepDeactivate, disposePanel, hpd]
        · intro q hq
          cases hq
          simp
        · intro t ht
          simp only [clearTimeout, List.mem_filter, decide_eq_true_eq] at ht
          refine ⟨ht.1, ?_⟩
          intro j hj
          cases hj
          exact ht.2
  obtain ⟨Tl, D, hs, hD, hT⟩ := hstep
  have htimers : ∀ t ∈ (stepDeactivate ⟨sn, sc, sd, stm, snt, snp, ssh, sdi, sdd⟩).timers,
      t ∈ stm ∧ (∀ i, sd = some i → t.id ≠ i) := by
    intro t ht
    rw [hs] at ht
    exact hT t ht
  refine ⟨by rw [hs], ?_, ?_, ?_⟩
  · intro p hp
    rw [hs]
    exact hD p hp
  · intro i hi t ht
    exact (htimers t ht).2 i hi
  · intro t ht
    obtain ⟨htm, hid⟩ := htimers t ht
    have hk : t.kind = .autoDismiss := by
      cases hkk : t.kind with
      | debounce => exact absurd (hid t.id (hdeb t htm hkk)) (by simp)
      | autoDismiss => rfl
    have hcn : (stepDeactivate ⟨sn, sc, sd, stm, snt, snp, ssh, sdi, sdd⟩).currentPanel = none := by
      rw [hs]
    refine ⟨hk, ?_, ?_⟩ <;>
      simp [fireTimer, hk, autoCb, hcn]

theorem claim8_witness :
    (stepDeactivate (stepShow { initSt with now := 0 })).currentPanel = none ∧
    ((0 : Nat), (0 : Nat))
      ∈ (stepDeactivate (stepShow { initSt with now := 0 })).disposed :=
  ⟨(claim8_amended_deactivate (stepShow { initSt with now := 0 })
      (by decide) (by decide)).1,
   (claim8_amended_deactivate (stepShow { initSt with now := 0 })
      (by decide) (by decide)).2.1 0 rfl⟩

/-! ## Claim C3: at most one live surface, over all reachable states -/

@[simp] theorem stepTrigger_shown (s : St) : (stepTrigger s).shown = s.shown := by
  unfold stepTrigger; cases s.debounceTimer <;> rfl

@[simp] theorem stepTrigger_disposed (s : St) :
    (stepTrigger s).disposed = s.disposed := by
  unfold stepTrigger; cases s.debounceTimer <;> rfl

@[simp] theorem stepTrigger_currentPanel (s : St) :
    (stepTrigger s).currentPanel = s.currentPanel := by
  unfold stepTrigger; cases s.debounceTimer <;> rfl

@[simp] theorem stepTrigger_nextPanel (s : St) :
    (stepTrigger s).nextPanel = s.nextPanel := by
  unfold stepTrigger; cases s.debounceTimer <;> rfl

@[simp] theorem stepTrigger_doubleDispose (s : St) :
    (stepTrigger s).doubleDispose = s.doubleDispose := by
  unfold stepTrigger; cases s.debounceTimer <;> rfl

/-- The atomic steps the extension's event loop can take: an external
stimulus arriving at any time, or any pending timer firing. -/
inductive Step : St → St → Prop where
  | evTrigger (s : St) (te : Nat) : Step s (stepTrigger { s with now := te })
  | evShow (s : St) (te : Nat) : Step s (stepShow { s with now := te })
  | evExtClose (s : St) (te : Nat) : Step s (stepExtClose { s with now := te })
  | evDeactivate (s : St) (te : Nat) : Step s (stepDeactivate { s with now := te })
  | evFire (s : St) (t : Timer) (l1 l2 : List Timer)
      (h : s.timers = l1 ++ t :: l2) :
      Step s (fireTimer t { s with timers := l1 ++ l2 })

/-- States reachable from activation by any sequence of atomic steps. -/
def Reachable (s : St) : Prop := Relation.ReflTransGen Step initSt s

/-- The inductive invariant: shown panel ids are distinct and below the
fresh-id counter, every disposed panel was shown, the live panel (if
any) was shown, is not disposed, and every other shown panel is
disposed; when no panel is live every shown panel is disposed; and no
double dispose ever happened. -/
structure Inv (s : St) : Prop where
  shownNodup : (s.shown.map Prod.fst).Nodup
  shownLt : ∀ q ∈ s.shown.map Prod.fst, q < s.nextPanel
  dispSub : ∀ q ∈ s.disposed.map Prod.fst, q ∈ s.shown.map Prod.fst
  curSome : ∀ p, s.currentPanel = some p →
    p ∈ s.shown.map Prod.fst ∧ p ∉ s.disposed.map Prod.fst ∧
    ∀ q ∈ s.shown.map Prod.fst, q ≠ p → q ∈ s.disposed.map Prod.fst
  curNone : s.currentPanel = none →
    ∀ q ∈ s.shown.map Prod.fst, q ∈ s.disposed.map Prod.fst
  noDbl : s.doubleDispose = false

theorem Inv.of_eq {s s2 : St} (h : Inv s)
    (h1 : s2.shown = s.shown) (h2 : s2.disposed = s.disposed)
    (h3 : s2.currentPanel = s.currentPanel) (h4 : s2.nextPanel = s.nextPanel)
    (h5 : s2.doubleDispose = s.doubleDispose) : Inv s2 := by
  constructor
  · rw [h1]; exact h.shownNodup
  · rw [h1, h4]; exact h.shownLt
  · rw [h1, h2]; exact h.dispSub
  · rw [h1, h2, h3]; exact h.curSome
  · rw [h1, h2, h3]; exact h.curNone
  · rw [h5]; exact h.noDbl

theorem inv_initSt : Inv initSt := by
  constructor <;> first | rfl | simp [initSt]

theorem inv_setNow {s : St} (h : Inv s) (te : Nat) :
    Inv { s with now := te } :=
  h.of_eq rfl rfl rfl rfl rfl

theorem inv_disposeCur {s : St} {p : Nat} (h : Inv s)
    (hp : s.currentPanel = some p) :
    Inv (disposePanel p s) ∧ (disposePanel p s).currentPanel = none ∧
    (disposePanel p s).disposed = s.disposed ++ [(p, s.now)] := by
  obtain ⟨h1, h2, h3⟩ := h.curSome p hp
  unfold disposePanel
  rw [if_neg h2]
  refine ⟨?_, rfl, rfl⟩
  constructor
  · exact h.shownNodup
  · exact h.shownLt
  · intro q hq
    simp only [List.map_append, List.mem_append, List.map_cons, List.map_nil,
      List.mem_singleton] at hq
    rcases hq with hq | hq
    · exact h.dispSub q hq
    · try simp only [List.mem_cons, List.not_mem_nil, or_false] at hq
      rw [hq]; exact h1
  · intro q hq
    exact absurd hq (by simp)
  · intro _ q hq
    simp only [List.map_append, List.mem_append]
    by_cases hqp : q = p
    · right; simp [hqp]
    · exact Or.inl (h3 q hq hqp)
  · exact h.noDbl

theorem inv_create {s1 : St} (h : Inv s1)
    (hall : ∀ q ∈ s1.shown.map Prod.fst, q ∈ s1.disposed.map Prod.fst) :
    Inv { s1 with
      currentPanel := some s1.nextPanel,
      nextPanel := s1.nextPanel + 1,
      shown := s1.shown ++ [(s1.nextPanel, s1.now)],
      timers := insertT ⟨s1.nextTimer, s1.now + 5000, .autoDismiss⟩ s1.timers,
      nextTimer := s1.nextTimer + 1 } := by
  have hfresh : s1.nextPanel ∉ s1.shown.map Prod.fst := by
    intro hmem
    exact absurd (h.shownLt _ hmem) (by omega)
  constructor
  · simp only [List.map_append, List.map_cons, List.map_nil]
    rw [List.nodup_append]
    refine ⟨h.shownNodup, by simp, ?_⟩
    intro q hq
    simp only [List.mem_cons, List.not_mem_nil, or_false]
    intro hqe
    rw [hqe] at hq
    exact hfresh hq
  · intro q hq
    simp only [List.map_append, List.mem_append, List.map_cons, List.map_nil,
      List.mem_singleton] at hq
    rcases hq with hq | hq
    · exact Nat.lt_succ_of_lt (h.shownLt q hq)
    · try simp only [List.mem_cons, List.not_mem_nil, or_false] at hq
      show q < s1.nextPanel + 1
      omega
  · intro q hq
    simp only [List.map_append, List.mem_append]
    exact Or.inl (h.dispSub q hq)
  · intro p hp
    simp only [Option.some.injEq] at hp
    refine ⟨by simp [← hp], ?_, ?_⟩
    · intro hmem
      have hm2 : p ∈ s1.disposed.map Prod.fst := by simpa using hmem
      exact hfresh (by rw [hp]; exact h.dispSub p hm2)
    · intro q hq hqp
      simp only [List.map_append, List.mem_append, List.map_cons, List.map_nil,
        List.mem_singleton] at hq
      rcases hq with hq | hq
      · exact hall q hq
      · try simp only [List.mem_cons, List.not_mem_nil, or_false] at hq
        rw [← hp] at hqp
        exact absurd hq hqp
  · intro hc
    exact absurd hc (by simp)
  · exact h.noDbl

theorem inv_stepShow {s : St} (h : Inv s) : Inv (stepShow s) := by
  cases hc : s.currentPanel with
  | none =>
    have e : stepShow s
        = { s with
            currentPanel := some s.nextPanel,
            nextPanel := s.nextPanel + 1,
            shown := s.shown ++ [(s.nextPanel, s.now)],
            timers := insertT ⟨s.nextTimer, s.now + 5000, .autoDismiss⟩ s.timers,
            nextTimer := s.nextTimer + 1 } := by
      simp [stepShow, hc]
    rw [e]
    exact inv_create h (h.curNone hc)
  | some p =>
    obtain ⟨hi, hcn, _⟩ := inv_disposeCur h hc
    have e : stepShow s
        = { disposePanel p s with
            currentPanel := some (disposePanel p s).nextPanel,
            nextPanel := (disposePanel p s).nextPanel + 1,
            shown := (disposePanel p s).shown
              ++ [((disposePanel p s).nextPanel, (disposePanel p s).now)],
            timers := insertT ⟨(disposePanel p s).nextTimer,
              (disposePanel p s).now + 5000, .autoDismiss⟩ (disposePanel p s).timers,
            nextTimer := (disposePanel p s).nextTimer + 1 } := by
      simp [stepShow, hc]
    rw [e]
    exact inv_create hi (hi.curNone hcn)

theorem inv_autoCb {s : St} (h : Inv s) : Inv (autoCb s) := by
  cases hc : s.currentPanel with
  | none =>
    have e : autoCb s = s := by simp [autoCb, hc]
    rw [e]; exact h
  | some p =>
    obtain ⟨hi, hcn, _⟩ := inv_disposeCur h hc
    have e : autoCb s = { disposePanel p s with currentPanel := none } := by
      simp [autoCb, hc]
    rw [e]
    exact hi.of_eq rfl rfl (by rw [hcn]) rfl rfl

theorem inv_stepExtClose {s : St} (h : Inv s) : Inv (stepExtClose s) := by
  cases hc : s.currentPanel with
  | none =>
    have e : stepExtClose s = s := by simp [stepExtClose, hc]
    rw [e]; exact h
  | some p =>
    have e : stepExtClose s = disposePanel p s := by simp [stepExtClose, hc]
    rw [e]
    exact (inv_disposeCur h hc).1

theorem inv_stepDeactivate {s : St} (h : Inv s) : Inv (stepDeactivate s) := by
  cases hc : s.currentPanel with
  | none =>
    cases hd : s.debounceTimer with
    | none =>
      have e : stepDeactivate s = s := by simp [stepDeactivate, hc, hd]
      rw [e]; exact h
    | some i =>
      have e : stepDeactivate s = { s with timers := clearTimeout i s.timers } := by
        simp [stepDeactivate, hc, hd]
      rw [e]
      exact h.of_eq rfl rfl rfl rfl rfl
  | some p =>
    cases hd : s.debounceTimer with
    | none =>
      have e : stepDeactivate s = disposePanel p s := by
        simp [stepDeactivate, hc, hd]
      rw [e]
      exact (inv_disposeCur h hc).1
    | some i =>
      have e : stepDeactivate s
          = { disposePanel p s with
              timers := clearTimeout i (disposePanel p s).timers } := by
        simp [stepDeactivate, hc, hd]
      rw [e]
      exact ((inv_disposeCur h hc).1).of_eq rfl rfl rfl rfl rfl

theorem inv_fireTimer {s : St} (h : Inv s) (t : Timer) : Inv (fireTimer t s) := by
  cases hk : t.kind with
  | debounce =>
    have e : fireTimer t s = stepShow { s with now := t.fireAt } := by
      simp [fireTimer, hk]
    rw [e]
    exact inv_stepShow (inv_setNow h t.fireAt)
  | autoDismiss =>
    have e : fireTimer t s = autoCb { s with now := t.fireAt } := by
      simp [fireTimer, hk]
    rw [e]
    exact inv_autoCb (inv_setNow h t.fireAt)

theorem inv_step {s s2 : St} (h : Inv s) (hs : Step s s2) : Inv s2 := by
  cases hs with
  | evTrigger te =>
    exact (inv_setNow h te).of_eq
      (stepTrigger_shown _) (stepTrigger_disposed _) (stepTrigger_currentPanel _)
      (stepTrigger_nextPanel _) (stepTrigger_doubleDispose _)
  | evShow te => exact inv_stepShow (inv_setNow h te)
  | evExtClose te => exact inv_stepExtClose (inv_setNow h te)
  | evDeactivate te => exact inv_stepDeactivate (inv_setNow h te)
  | evFire t l1 l2 hl =>
    exact inv_fireTimer ((h.of_eq rfl rfl rfl rfl rfl :
      Inv { s with timers := l1 ++ l2 })) t

theorem inv_reachable {s : St} (h : Reachable s) : Inv s := by
  induction h with
  | refl => exact inv_initSt
  | tail _ hstep ih => exact inv_step ih hstep

theorem length_le_one_of_nodup_const {l : List Nat} {a : Nat}
    (hn : l.Nodup) (hc : ∀ x ∈ l, x = a) : l.length ≤ 1 := by
  match l with
  | [] => simp
  | [x] => simp
  | x :: y :: t =>
    exfalso
    have hx : x = a := hc x (by simp)
    have hy : y = a := hc y (by simp)
    rw [List.nodup_cons] at hn
    exact hn.1 (by rw [hx, ← hy]; simp)

theorem liveCount_le_one {s : St} (h : Inv s) : liveCount s ≤ 1 := by
  unfold liveCount
  cases hc : s.currentPanel with
  | none =>
    have he : s.shown.filter
        (fun e => decide (e.1 ∈ s.disposed.map Prod.fst) = false) = [] := by
      rw [List.filter_eq_nil_iff]
      intro e he
      have : e.1 ∈ s.disposed.map Prod.fst :=
        h.curNone hc e.1 (List.mem_map_of_mem Prod.fst he)
      simp [this]
    rw [he]
    simp
  | some p =>
    obtain ⟨_, _, h3⟩ := h.curSome p hc
    set F := s.shown.filter
        (fun e => decide (e.1 ∈ s.disposed.map Prod.fst) = false) with hF
    have hsub : F.Sublist s.shown := List.filter_sublist s.shown
    have hnd : (F.map Prod.fst).Nodup := (hsub.map Prod.fst).nodup h.shownNodup
    have hcst : ∀ x ∈ F.map Prod.fst, x = p := by
      intro x hx
      obtain ⟨e, heF, hex⟩ := List.mem_map.mp hx
      rw [hF, List.mem_filter] at heF
      obtain ⟨hes, hed⟩ := heF
      have hed2 : e.1 ∉ s.disposed.map Prod.fst := by simpa using hed
      by_contra hxp
      rw [← hex] at hxp
      exact hed2 (h3 e.1 (List.mem_map_of_mem Prod.fst hes) hxp)
    have := length_le_one_of_nodup_const hnd hcst
    simpa using this

/-- Claim C3: in every reachable state the number of live notification
surfaces is at most one, and calling `show()` while a surface is live
disposes that old surface (it appears in the disposal log of the
post-`show` state). -/
theorem claim3_at_most_one_live_surface (s : St) (h : Reachable s) :
    liveCount s ≤ 1 ∧
    ∀ p, s.currentPanel = some p →
      p ∈ (stepShow s).disposed.map Prod.fst := by
  have hi := inv_reachable h
  refine ⟨liveCount_le_one hi, ?_⟩
  intro p hp
  obtain ⟨_, hnd, _⟩ := hi.curSome p hp
  have e : (stepShow s).disposed = s.disposed ++ [(p, s.now)] := by
    unfold stepShow
    rw [hp]
    simp [disposePanel, hnd]
  rw [e]
  simp

theorem claim3_witness :
    liveCount (stepShow { initSt with now := 0 }) ≤ 1 ∧
    (0 : Nat) ∈ (stepShow (stepShow { initSt with now := 0 })).disposed.map
      Prod.fst :=
  ⟨(claim3_at_most_one_live_surface (stepShow { initSt with now := 0 })
      (Relation.ReflTransGen.single (Step.evShow initSt 0))).1,
   (claim3_at_most_one_live_surface (stepShow { initSt with now := 0 })
      (Relation.ReflTransGen.single (Step.evShow initSt 0))).2 0 rfl⟩

/-! ## Claim C2: spaced-out detection events, one notification each -/

/-- The timer queue is sorted by deadline. -/
def SortedT (l : List Timer) : Prop :=
  l.Pairwise (fun a b => a.fireAt ≤ b.fireAt)

/-- Whether a timer is a debounce timer. -/
def isDebT (t : Timer) : Bool := decide (t.kind = TimerKind.debounce)

/-- Whether a timer is a debounce timer due by time `T`. -/
def dueDebT (T : Nat) (t : Timer) : Bool :=
  decide (t.fireAt ≤ T) && isDebT t

theorem tw_pos (t : Timer) : 1 ≤ tw t := by
  cases h : t.kind <;> simp [tw, h]

theorem mem_insertT {a b : Timer} {l : List Timer} :
    b ∈ insertT a l ↔ b = a ∨ b ∈ l := by
  induction l with
  | nil => simp [insertT]
  | cons c l ih =>
    unfold insertT
    split
    · simp [or_assoc, or_comm, or_left_comm]
    · simp only [List.mem_cons, ih]
      tauto

theorem filter_insertT_false {p : Timer → Bool} {a : Timer}
    (h : p a = false) (l : List Timer) :
    (insertT a l).filter p = l.filter p := by
  induction l with
  | nil => simp [insertT, h]
  | cons c l ih =>
    unfold insertT
    split
    · simp [List.filter_cons, h]
    · simp [List.filter_cons, ih]

theorem filter_insertT_singleton {p : Timer → Bool} {a : Timer}
    (h : p a = true) {l : List Timer} (hl : l.filter p = []) :
    (insertT a l).filter p = [a] := by
  induction l with
  | nil => simp [insertT, h]
  | cons c l ih =>
    rw [List.filter_cons] at hl
    have hc : p c = false := by
      by_contra hcc
      rw [Bool.not_eq_false] at hcc
      rw [if_pos hcc] at hl
      exact List.cons_ne_nil c _ hl
    rw [if_neg (by simp [hc])] at hl
    unfold insertT
    split
    · simp [List.filter_cons, h, hc, hl]
    · simp [List.filter_cons, hc, ih hl]

theorem sortedT_insertT {a : Timer} {l : List Timer} (h : SortedT l) :
    SortedT (insertT a l) := by
  induction l with
  | nil => simp [insertT, SortedT]
  | cons c l ih =>
    simp only [SortedT, List.pairwise_cons] at h
    obtain ⟨hcl, hl⟩ := h
    unfold insertT
    split
    · simp only [SortedT, List.pairwise_cons]
      constructor
      · intro b hb
        rcases List.mem_cons.mp hb with hb | hb
        · rw [hb]; omega
        · exact le_trans (by omega) (hcl b hb)
      · exact ⟨hcl, hl⟩
    · simp only [SortedT, List.pairwise_cons]
      constructor
      · intro b hb
        rcases mem_insertT.mp hb with hb | hb
        · rw [hb]; omega
        · exact hcl b hb
      · exact ih hl

theorem filter_eq_self_of_ne {i : Nat} {l : List Timer}
    (h : ∀ t ∈ l, t.id ≠ i) : clearTimeout i l = l := by
  unfold clearTimeout
  rw [List.filter_eq_self]
  intro t ht
  simpa using h t ht

/-- Firing every pending timer appends to the shown log exactly the
deadlines of the pending debounce timers, in queue order (the auto
timers that a fired debounce schedules are not debounce timers and add
nothing). -/
theorem drainAll_shownTimes_aux :
    ∀ (n : Nat) (s : St), wsum s.timers ≤ n →
    shownTimes (drainAll s)
      = shownTimes s ++ (s.timers.filter isDebT).map Timer.fireAt := by
  intro n
  induction n with
  | zero =>
    intro s hn
    cases ht : s.timers with
    | nil => rw [drainAll_nil ht]; simp
    | cons t rest =>
      exfalso
      rw [ht] at hn
      have := tw_pos t
      simp [wsum] at hn
      omega
  | succ n ih =>
    intro s hn
    cases ht : s.timers with
    | nil => rw [drainAll_nil ht]; simp
    | cons t rest =>
      rw [drainAll_cons ht]
      have hwr : wsum rest + tw t ≤ n + 1 := by
        rw [ht] at hn
        simp only [wsum, List.map_cons, List.sum_cons] at hn
        simp only [wsum]
        omega
      cases hk : t.kind with
      | debounce =>
        have e : fireTimer t { s with timers := rest }
            = stepShow { s with timers := rest, now := t.fireAt } := by
          simp [fireTimer, hk]
        rw [e, ih _ (by
          simp only [stepShow_timers, insertT_wsum, tw]
          have : tw t = 2 := by simp [tw, hk]
          omega)]
        simp only [stepShow_timers]
        rw [filter_insertT_false (by simp [isDebT]) rest]
        have hsh : shownTimes (stepShow { s with timers := rest, now := t.fireAt })
            = shownTimes s ++ [t.fireAt] := by
          simp [shownTimes]
        rw [hsh, List.filter_cons, if_pos (by simp [isDebT, hk])]
        simp
      | autoDismiss =>
        have e : fireTimer t { s with timers := rest }
            = autoCb { s with timers := rest, now := t.fireAt } := by
          simp [fireTimer, hk]
        rw [e, ih _ (by
          simp only [autoCb_timers]
          have := tw_pos t
          omega)]
        have hsh : shownTimes (autoCb { s with timers := rest, now := t.fireAt })
            = shownTimes s := by
          simp [shownTimes]
        rw [hsh]
        simp only [autoCb_timers]
        rw [List.filter_cons, if_neg (by simp [isDebT, hk])]

theorem drainAll_shownTimes (s : St) :
    shownTimes (drainAll s)
      = shownTimes s ++ (s.timers.filter isDebT).map Timer.fireAt :=
  drainAll_shownTimes_aux (wsum s.timers) s le_rfl

/-- Draining up to time `T` appends to the shown log exactly the
deadlines of the pending debounce timers due by `T`, in queue order. -/
theorem drain_shownTimes_aux :
    ∀ (n T : Nat) (s : St), wsum s.timers ≤ n → SortedT s.timers →
    shownTimes (drain T s)
      = shownTimes s ++ (s.timers.filter (dueDebT T)).map Timer.fireAt := by
  intro n
  induction n with
  | zero =>
    intro T s hn hs
    cases ht : s.timers with
    | nil => rw [drain_nil ht]; simp
    | cons t rest =>
      exfalso
      rw [ht] at hn
      have := tw_pos t
      simp [wsum] at hn
      omega
  | succ n ih =>
    intro T s hn hs
    cases ht : s.timers with
    | nil => rw [drain_nil ht]; simp
    | cons t rest =>
      rw [ht] at hs
      simp only [SortedT, List.pairwise_cons] at hs
      obtain ⟨hhead, htail⟩ := hs
      have hwr : wsum rest + tw t ≤ n + 1 := by
        rw [ht] at hn
        simp only [wsum, List.map_cons, List.sum_cons] at hn
        simp only [wsum]
        omega
      by_cases hf : t.fireAt ≤ T
      · rw [drain_fire ht hf]
        cases hk : t.kind with
        | debounce =>
          have e : fireTimer t { s with timers := rest }
              = stepShow { s with timers := rest, now := t.fireAt } := by
            simp [fireTimer, hk]
          rw [e, ih T _ (by
              simp only [stepShow_timers, insertT_wsum, tw]
              have : tw t = 2 := by simp [tw, hk]
              omega)
            (by
              simp only [stepShow_timers]
              exact sortedT_insertT htail)]
          simp only [stepShow_timers]
          rw [filter_insertT_false (by simp [dueDebT, isDebT]) rest]
          have hsh : shownTimes (stepShow { s with timers := rest, now := t.fireAt })
              = shownTimes s ++ [t.fireAt] := by
            simp [shownTimes]
          rw [hsh, List.filter_cons, if_pos (by simp [dueDebT, isDebT, hk, hf])]
          simp
        | autoDismiss =>
          have e : fireTimer t { s with timers := rest }
              = autoCb { s with timers := rest, now := t.fireAt } := by
            simp [fireTimer, hk]
          rw [e, ih T _ (by
              simp only [autoCb_timers]
              have := tw_pos t
              omega)
            (by simp only [autoCb_timers]; exact htail)]
          have hsh : shownTimes (autoCb { s with timers := rest, now := t.fireAt })
              = shownTimes s := by
            simp [shownTimes]
          rw [hsh]
          simp only [autoCb_timers]
          rw [List.filter_cons, if_neg (by simp [dueDebT, isDebT, hk])]
      · rw [drain_stop ht hf]
        have hnil : (t :: rest).filter (dueDebT T) = [] := by
          rw [List.filter_eq_nil_iff]
          intro u hu
          rcases List.mem_cons.mp hu with hu | hu
          · simp [hu, dueDebT, hf]
          · have hle := hhead u hu
            simp only [dueDebT, Bool.and_eq_true, decide_eq_true_eq, not_and]
            intro hc
            exfalso
            omega
        rw [hnil]
        simp

theorem drain_shownTimes (T : Nat) (s : St) (hs : SortedT s.timers) :
    shownTimes (drain T s)
      = shownTimes s ++ (s.timers.filter (dueDebT T)).map Timer.fireAt :=
  drain_shownTimes_aux (wsum s.timers) T s le_rfl hs

/-- Draining up to time `T` preserves the queue's sortedness and the
debounce handle, never decreases the fresh-id counter, and leaves only
timers due strictly after `T` — each either an original pending timer or
a freshly scheduled auto-dispose timer with a fresh id. -/
theorem drain_state_aux :
    ∀ (n T : Nat) (s : St), wsum s.timers ≤ n → SortedT s.timers →
    SortedT (drain T s).timers ∧
    (drain T s).debounceTimer = s.debounceTimer ∧
    s.nextTimer ≤ (drain T s).nextTimer ∧
    (∀ u ∈ (drain T s).timers,
      T < u.fireAt ∧
      (u ∈ s.timers ∨ (s.nextTimer ≤ u.id ∧ u.kind = TimerKind.autoDismiss))) ∧
    ((∀ v ∈ s.timers, v.id < s.nextTimer) →
      ∀ u ∈ (drain T s).timers, u.id < (drain T s).nextTimer) := by
  intro n
  induction n with
  | zero =>
    intro T s hn hs
    cases ht : s.timers with
    | nil =>
      rw [drain_nil ht]
      exact ⟨hs, rfl, le_rfl, by rw [ht]; simp,
        fun _ => by intro u hu; rw [ht] at hu; simp at hu⟩
    | cons t rest =>
      exfalso
      rw [ht] at hn
      have := tw_pos t
      simp [wsum] at hn
      omega
  | succ n ih =>
    intro T s hn hs
    cases ht : s.timers with
    | nil =>
      rw [drain_nil ht]
      exact ⟨hs, rfl, le_rfl, by rw [ht]; simp,
        fun _ => by intro u hu; rw [ht] at hu; simp at hu⟩
    | cons t rest =>
      have hs2 := hs
      rw [ht] at hs2
      simp only [SortedT, List.pairwise_cons] at hs2
      obtain ⟨hhead, htail⟩ := hs2
      have hwr : wsum rest + tw t ≤ n + 1 := by
        rw [ht] at hn
        simp only [wsum, List.map_cons, List.sum_cons] at hn
        simp only [wsum]
        omega
      by_cases hf : t.fireAt ≤ T
      · rw [drain_fire ht hf]
        cases hk : t.kind with
        | debounce =>
          have e : fireTimer t { s with timers := rest }
              = stepShow { s with timers := rest, now := t.fireAt } := by
            simp [fireTimer, hk]
          rw [e]
          have hw2 : wsum (stepShow { s with timers := rest, now := t.fireAt }).timers ≤ n := by
            simp only [stepShow_timers, insertT_wsum, tw]
            have : tw t = 2 := by simp [tw, hk]
            omega
          have hs3 : SortedT (stepShow { s with timers := rest, now := t.fireAt }).timers := by
            simp only [stepShow_timers]
            exact sortedT_insertT htail
          obtain ⟨c1, c2, c3, c4, c5⟩ := ih T _ hw2 hs3
          refine ⟨c1, by rw [c2]; simp, ?_, ?_, ?_⟩
          · calc s.nextTimer
                ≤ s.nextTimer + 1 := by omega
              _ ≤ _ := by simpa using c3
          · intro u hu
            obtain ⟨hu1, hu2⟩ := c4 u hu
            refine ⟨hu1, ?_⟩
            rcases hu2 with hu2 | hu2
            · rw [stepShow_timers] at hu2
              rcases mem_insertT.mp hu2 with hu3 | hu3
              · right
                rw [hu3]
                exact ⟨le_rfl, rfl⟩
              · left
                exact List.mem_cons_of_mem t hu3
            · right
              simp only [stepShow_nextTimer] at hu2
              exact ⟨by omega, hu2.2⟩
          · intro hids u hu
            refine c5 ?_ u hu
            intro v hv
            simp only [stepShow_timers] at hv
            simp only [stepShow_nextTimer]
            rcases mem_insertT.mp hv with hv | hv
            · rw [hv]
              exact Nat.lt_succ_self _
            · have := hids v (List.mem_cons_of_mem t hv)
              omega
        | autoDismiss =>
          have e : fireTimer t { s with timers := rest }
              = autoCb { s with timers := rest, now := t.fireAt } := by
            simp [fireTimer, hk]
          rw [e]
          have hw2 : wsum (autoCb { s with timers := rest, now := t.fireAt }).timers ≤ n := by
            simp only [autoCb_timers]
            have := tw_pos t
            omega
          have hs3 : SortedT (autoCb { s with timers := rest, now := t.fireAt }).timers := by
            simp only [autoCb_timers]
            exact htail
          obtain ⟨c1, c2, c3, c4, c5⟩ := ih T _ hw2 hs3
          refine ⟨c1, by rw [c2]; simp, by simpa using c3, ?_, ?_⟩
          · intro u hu
            obtain ⟨hu1, hu2⟩ := c4 u hu
            refine ⟨hu1, ?_⟩
            rcases hu2 with hu2 | hu2
            · rw [autoCb_timers] at hu2
              left
              exact List.mem_cons_of_mem t hu2
            · right
              simpa using hu2
          · intro hids u hu
            refine c5 ?_ u hu
            intro v hv
            simp only [autoCb_timers] at hv
            simp only [autoCb_nextTimer]
            exact hids v (List.mem_cons_of_mem t hv)
      · rw [drain_stop ht hf]
        refine ⟨hs, rfl, le_rfl, ?_, fun h u hu => h u (ht ▸ hu)⟩
        intro u hu
        rw [ht] at hu
        refine ⟨?_, Or.inl hu⟩
        rcases List.mem_cons.mp hu with hu2 | hu2
        · rw [hu2]
          omega
        · have := hhead u hu2
          omega

theorem drain_state (T : Nat) (s : St) (hs : SortedT s.timers) :
    SortedT (drain T s).timers ∧
    (drain T s).debounceTimer = s.debounceTimer ∧
    s.nextTimer ≤ (drain T s).nextTimer ∧
    (∀ u ∈ (drain T s).timers,
      T < u.fireAt ∧
      (u ∈ s.timers ∨ (s.nextTimer ≤ u.id ∧ u.kind = TimerKind.autoDismiss))) ∧
    ((∀ v ∈ s.timers, v.id < s.nextTimer) →
      ∀ u ∈ (drain T s).timers, u.id < (drain T s).nextTimer) :=
  drain_state_aux (wsum s.timers) T s le_rfl hs

/-- Detection-event times each no earlier than the pending debounce
deadline, with successive events more than 500 ms apart. -/
def gapOkB (fa : Nat) : List Nat → Bool
  | [] => true
  | t :: ts => decide (fa ≤ t) && gapOkB (t + 500) ts

/-- Successive detection events spaced more than 500 ms apart. -/
def spacedOutB : List Nat → Bool
  | [] => true
  | [_] => true
  | t1 :: t2 :: ts => decide (t1 + 500 < t2) && spacedOutB (t2 :: ts)

theorem gapOkB_of_spacedOutB :
    ∀ (ts : List Nat) (t : Nat), spacedOutB (t :: ts) = true →
    gapOkB (t + 500) ts = true := by
  intro ts
  induction ts with
  | nil => intro t _; rfl
  | cons t2 ts ih =>
    intro t h
    simp only [spacedOutB, Bool.and_eq_true, decide_eq_true_eq] at h
    simp only [gapOkB, Bool.and_eq_true, decide_eq_true_eq]
    exact ⟨by omega, ih t2 h.2⟩

/-- Running `trigger` stimuli each arriving no earlier than the pending
debounce deadline and spaced more than 500 ms apart, from a state whose
queue holds exactly one debounce timer `d` (the stored handle): the
pending debounce fires, and every trigger's own debounce timer fires
uncancelled, so one notification appears per event, 500 ms after it. -/
theorem runTriggersSpaced :
    ∀ (ts : List Nat) (s : St) (d : Timer),
    SortedT s.timers →
    (∀ v ∈ s.timers, v.id < s.nextTimer) →
    s.timers.filter isDebT = [d] →
    (∀ u ∈ s.timers, u.id = d.id → u = d) →
    s.debounceTimer = some d.id →
    gapOkB d.fireAt ts = true →
    shownTimes (run (ts.map (fun t => (t, Ev.trigger))) s)
      = shownTimes s ++ d.fireAt :: ts.map (· + 500) := by
  intro ts
  induction ts with
  | nil =>
    intro s d hsort hids hfil hidD hdt hgap
    rw [List.map_nil, run_nil, drainAll_shownTimes s, hfil]
    simp
  | cons t1 ts ih =>
    intro s d hsort hids hfil hidD hdt hgap
    simp only [gapOkB, Bool.and_eq_true, decide_eq_true_eq] at hgap
    obtain ⟨hdle, hgap⟩ := hgap
    rw [List.map_cons, run_cons]
    obtain ⟨c1, c2, c3, c4, c5⟩ := drain_state t1 s hsort
    have hshown : shownTimes (drain t1 s) = shownTimes s ++ [d.fireAt] := by
      rw [drain_shownTimes t1 s hsort]
      have hdd : s.timers.filter (dueDebT t1) = [d] := by
        have e : s.timers.filter (dueDebT t1)
            = (s.timers.filter isDebT).filter
                (fun u => decide (u.fireAt ≤ t1)) := by
          rw [List.filter_filter]
          rfl
        rw [e, hfil, List.filter_cons, if_pos (by simpa using hdle)]
        rfl
      rw [hdd]
      simp
    have hdmem : d ∈ s.timers := by
      have : d ∈ s.timers.filter isDebT := by rw [hfil]; simp
      exact List.mem_of_mem_filter this
    have hdid : d.id < s.nextTimer := hids d hdmem
    have hnotin : ∀ u ∈ (drain t1 s).timers, u.id ≠ d.id := by
      intro u hu
      obtain ⟨hu1, hu2⟩ := c4 u hu
      rcases hu2 with hu2 | hu2
      · intro he
        have := hidD u hu2 he
        rw [this] at hu1
        omega
      · intro he
        omega
    have hnodeb : (drain t1 s).timers.filter isDebT = [] := by
      rw [List.filter_eq_nil_iff]
      intro u hu
      obtain ⟨hu1, hu2⟩ := c4 u hu
      intro hdebu
      rcases hu2 with hu2 | hu2
      · have hu3 : u ∈ s.timers.filter isDebT := List.mem_filter.mpr ⟨hu2, hdebu⟩
        rw [hfil] at hu3
        simp only [List.mem_singleton] at hu3
        rw [hu3] at hu1
        omega
      · simp [isDebT, hu2.2] at hdebu
    have estep : doExt Ev.trigger { drain t1 s with now := t1 }
        = { drain t1 s with
            now := t1,
            timers := insertT ⟨(drain t1 s).nextTimer, t1 + 500,
              TimerKind.debounce⟩ (drain t1 s).timers,
            debounceTimer := some (drain t1 s).nextTimer,
            nextTimer := (drain t1 s).nextTimer + 1 } := by
      simp only [doExt]
      unfold stepTrigger
      simp only [c2, hdt]
      rw [filter_eq_self_of_ne hnotin]
    rw [estep]
    rw [ih _ ⟨(drain t1 s).nextTimer, t1 + 500, TimerKind.debounce⟩
      (sortedT_insertT c1)
      (by
        intro v hv
        show v.id < (drain t1 s).nextTimer + 1
        rcases mem_insertT.mp hv with hv | hv
        · rw [hv]
          simp
        · have := c5 hids v hv
          omega)
      (filter_insertT_singleton (by simp [isDebT]) hnodeb)
      (by
        intro u hu hui
        have hui2 : u.id = (drain t1 s).nextTimer := hui
        rcases mem_insertT.mp hu with hu | hu
        · exact hu
        · have := c5 hids u hu
          exfalso
          omega)
      rfl
      hgap]
    rw [show shownTimes { drain t1 s with
            now := t1,
            timers := insertT ⟨(drain t1 s).nextTimer, t1 + 500,
              TimerKind.debounce⟩ (drain t1 s).timers,
            debounceTimer := some (drain t1 s).nextTimer,
            nextTimer := (drain t1 s).nextTimer + 1 }
        = shownTimes (drain t1 s) from rfl]
    rw [hshown]
    simp

/-- Claim C2: for detection events spaced more than 500 ms apart,
exactly N notifications are shown, one per event, each 500 ms after its
event. -/
theorem claim2_spaced_triggers (t0 : Nat) (ts : List Nat)
    (h : spacedOutB (t0 :: ts) = true) :
    shownTimes (run ((t0 :: ts).map (fun t => (t, Ev.trigger))) initSt)
      = (t0 :: ts).map (· + 500) ∧
    (run ((t0 :: ts).map (fun t => (t, Ev.trigger))) initSt).shown.length
      = (t0 :: ts).length := by
  have main : shownTimes (run ((t0 :: ts).map (fun t => (t, Ev.trigger))) initSt)
      = (t0 :: ts).map (· + 500) := by
    rw [List.map_cons, run_cons, drain_nil rfl]
    have e1 : doExt Ev.trigger { initSt with now := t0 }
        = ({ now := t0, currentPanel := none, debounceTimer := some 0
           , timers := [⟨0, t0 + 500, TimerKind.debounce⟩], nextTimer := 1
           , nextPanel := 0, shown := [], disposed := []
           , doubleDispose := false } : St) := rfl
    rw [e1]
    rw [runTriggersSpaced ts
      ({ now := t0, currentPanel := none, debounceTimer := some 0
       , timers := [⟨0, t0 + 500, TimerKind.debounce⟩], nextTimer := 1
       , nextPanel := 0, shown := [], disposed := []
       , doubleDispose := false } : St)
      ⟨0, t0 + 500, TimerKind.debounce⟩
      (by simp [SortedT])
      (by simp)
      rfl
      (by simp)
      rfl
      (gapOkB_of_spacedOutB ts t0 h)]
    simp [shownTimes]
  refine ⟨main, ?_⟩
  have := congrArg List.length main
  simpa [shownTimes] using this

theorem claim2_witness :
    shownTimes (run ([0, 501, 6000].map (fun t => (t, Ev.trigger))) initSt)
      = [0, 501, 6000].map (· + 500) ∧
    (run ([0, 501, 6000].map (fun t => (t, Ev.trigger))) initSt).shown.length
      = 3 :=
  claim2_spaced_triggers 0 [501, 6000] (by decide)

end YouPushed
